import Mathlib

/-!
Verification development for the `mzcrawler` web crawler
(`github.com/guilherme-santos/mzcrawler`).

The crawler's core lives in `http/webcrawler.go`.  This file gives a shallow
embedding of that code in Lean:

* Go `string` helpers (`strings.HasPrefix`, `strings.HasSuffix`,
  `strings.TrimSuffix`, `strings.TrimSpace`, `strings.EqualFold`,
  `strings.SplitAfter`, `strings.Join`) are modelled char-list-wise.
* `net/url.URL` is modelled by the structure `GoURL` together with
  `parseURL` (Go `url.Parse`) and `render` (Go `URL.String`), restricted to
  the URL shapes the crawler manipulates: no userinfo, no opaque part, and
  no percent-escaping (none of the URLs in play needs escaping).
* The crawler itself (`NewWebCrawler`, `newURLFound`, `worker`, `crawlURL`,
  `shouldFollow`, `normalizeURL`, `isReletivePath`, `domain`, `Crawl`) is
  embedded as a fuel-indexed sequential interpreter.  The HTTP collaborator
  is a call-indexed oracle `fetchFn : Nat -> String -> Option (List String)`
  giving, for the n-th GET issued by the crawl, either `none` (transport
  error / unparseable body) or the list of raw `<a href>` attribute values
  of the response, in document order (one per anchor).  The interpreter
  threads the mutex-linearised sequence of store operations (claims and
  commits) and a ghost event trace through a state `St`; goroutines are
  sequentialised depth-first, which is one legal interleaving, and the
  claim/commit sequence of any interleaving is one such linearisation.
-/

namespace Mzcrawler

/-! ## Go string helpers (char-list models) -/

/-- Model of the prefix test underlying `strings.HasPrefix`, on char lists. -/
def hasPfx : List Char → List Char → Bool
  | [], _ => true
  | _ :: _, [] => false
  | p :: ps, c :: cs => p == c && hasPfx ps cs

/-- Model of Go `strings.HasPrefix s p`. -/
def strHasPfx (s p : String) : Bool := hasPfx p.data s.data

/-- Model of Go `strings.HasSuffix s p`. -/
def strHasSfx (s p : String) : Bool := hasPfx p.data.reverse s.data.reverse

/-- Model of Go `strings.TrimSuffix u "/"` as used in `normalizeURL`:
drop one trailing `/` when present. -/
def trimSuffixSlash (s : String) : String :=
  if strHasSfx s "/" then String.mk s.data.dropLast else s

/-- Model of Go `strings.TrimSpace` (ASCII/Unicode whitespace at both ends). -/
def strTrimSpace (s : String) : String :=
  String.mk (((s.data.dropWhile Char.isWhitespace).reverse.dropWhile
    Char.isWhitespace).reverse)

/-- Model of Go `strings.EqualFold` (case-insensitive equality; the hosts in
play are ASCII, for which per-char lowering is exact). -/
def strEqualFold (a b : String) : Bool :=
  a.data.map Char.toLower == b.data.map Char.toLower

/-- Helper for `splitAfterDot`: accumulate chars, cutting after each `.`. -/
def splitAfterDotAux : List Char → List Char → List String
  | [], acc => [String.mk acc.reverse]
  | ch :: rest, acc =>
    if ch = '.' then String.mk ('.' :: acc).reverse :: splitAfterDotAux rest []
    else splitAfterDotAux rest (ch :: acc)

/-- Model of Go `strings.SplitAfter s "."`. -/
def splitAfterDot (s : String) : List String := splitAfterDotAux s.data []

/-! ## `net/url.URL` model -/

/-- Model of Go `net/url.URL` restricted to the fields the crawler touches:
`Scheme`, `Host`, `Path`, `RawQuery`, `Fragment`. -/
structure GoURL where
  scheme : String
  host : String
  path : String
  rawQuery : String
  fragment : String
deriving DecidableEq, Repr

/-- Split `s` at the first occurrence of `ch` into (before, after);
`after` is empty when `ch` does not occur.  Models the fragment/query
splitting done by Go `url.Parse`. -/
def splitFirstChar (s : String) (ch : Char) : String × String :=
  let pre := s.data.takeWhile (fun c => c != ch)
  match s.data.drop pre.length with
  | [] => (String.mk pre, "")
  | _ :: r => (String.mk pre, String.mk r)

/-- Scheme characters accepted by Go `url.getscheme` after the first char. -/
def isSchemeChar (c : Char) : Bool :=
  c.isAlpha || c.isDigit || c == '+' || c == '-' || c == '.'

/-- Model of Go `url.getscheme`: split `scheme:rest` when the part before the
first `:` is a well-formed scheme, else return no scheme and the whole
string.  The scheme is lowered, as Go does. -/
def getScheme (s : String) : String × String :=
  let pre := s.data.takeWhile (fun c => c != ':')
  match s.data.drop pre.length with
  | ':' :: r =>
    match pre with
    | [] => ("", s)
    | c0 :: _ =>
      if c0.isAlpha && pre.all isSchemeChar then
        (String.mk (pre.map Char.toLower), String.mk r)
      else ("", s)
  | _ => ("", s)

/-- Model of Go `url.Parse` for the URL shapes in play: fragment split at the
first `#`, raw query at the first `?`, optional scheme, and a `//authority`
prefix putting everything up to the next `/` into `Host`.  Go's `Parse`
fails only on malformed input (control characters, invalid escapes) that
never arises in this development, so the model always succeeds; the `Option`
is kept to mirror the Go signature. -/
def parseURL (s : String) : Option GoURL :=
  let fq := splitFirstChar s '#'
  let qq := splitFirstChar fq.1 '?'
  let sr := getScheme qq.1
  if strHasPfx sr.2 "//" then
    let r := sr.2.data.drop 2
    some ⟨sr.1, String.mk (r.takeWhile (fun c => c != '/')),
      String.mk (r.dropWhile (fun c => c != '/')), qq.2, fq.2⟩
  else
    some ⟨sr.1, "", sr.2, qq.2, fq.2⟩

/-- Model of Go `url.URL.String` (no userinfo/opaque/escaping, matching the
values the crawler builds): `scheme:`, then `//host` when there is a scheme
or host and a host or path, a `/` separating a host from a rootless path,
then path, `?query`, `#fragment`. -/
def render (u : GoURL) : String :=
  (if u.scheme ≠ "" then u.scheme ++ ":" else "")
    ++ (if (u.scheme ≠ "" ∨ u.host ≠ "") ∧ (u.host ≠ "" ∨ u.path ≠ "") then
          "//" ++ u.host
        else "")
    ++ (if u.path ≠ "" ∧ strHasPfx u.path "/" = false ∧ u.host ≠ "" then "/"
        else "")
    ++ u.path
    ++ (if u.rawQuery ≠ "" then "?" ++ u.rawQuery else "")
    ++ (if u.fragment ≠ "" then "#" ++ u.fragment else "")

/-! ## The crawler's own URL functions (`http/webcrawler.go`) -/

/-- Model of `domain(baseurl *url.URL)`: keep the last two dot-separated
pieces of the host (`strings.SplitAfter(host, ".")`), or the whole host when
there are at most two pieces. -/
def domainOf (baseurl : GoURL) : String :=
  let hostparts := splitAfterDot baseurl.host
  if hostparts.length ≤ 2 then baseurl.host
  else String.join (hostparts.drop (hostparts.length - 2))

/-- Model of the `WebCrawler` struct fields that carry crawl state:
`urlstr` (the seed as given), `url` (the parsed seed), `domain`
(registrable domain derived once at construction) and the
`FollowSubDomains` switch.  The HTTP client, logger and mutex are
represented by the interpreter itself. -/
structure Crawler where
  urlstr : String
  url : GoURL
  domain : String
  followSubDomains : Bool
deriving DecidableEq, Repr

/-- Model of `NewWebCrawler(baseurl string)`: parse the seed and build the
crawler; `FollowSubDomains` is initialised to `true`. -/
def NewWebCrawler (baseurl : String) : Option Crawler :=
  match parseURL baseurl with
  | none => none
  | some u => some ⟨baseurl, u, domainOf u, true⟩

/-- Default value of the `-subdomains` CLI flag registered in
`cmd/mzcrawler/main.go` (`flag.Bool("subdomains", false, ...)`); `main`
assigns it to `c.FollowSubDomains` after construction. -/
def followSubDomainsFlagDefault : Bool := false

/-- Model of `isReletivePath` (name kept from the source): a path is
"relative" when it starts with `/` or `..`. -/
def isReletivePath (path : String) : Bool :=
  strHasPfx path "/" || strHasPfx path ".."

/-- Model of `(c *WebCrawler) normalizeURL(u string)`: trim one trailing
slash; empty means the base stripped to scheme+host; `//`-prefixed is
scheme-relative; `/`- or `..`-prefixed replaces the base's path (query and
fragment cleared); anything else is returned unchanged.  Note that the base
is always `c.url`, the crawler's seed URL. -/
def normalizeURL (c : Crawler) (u0 : String) : String :=
  let u := trimSuffixSlash u0
  if u = "" then
    render { c.url with path := "", rawQuery := "", fragment := "" }
  else if strHasPfx u "//" then
    c.url.scheme ++ ":" ++ u
  else if isReletivePath u then
    render { c.url with path := u, rawQuery := "", fragment := "" }
  else u

/-- Model of `(c *WebCrawler) shouldFollow(baseurl string)`: parse the URL;
with `FollowSubDomains` off, the host must equal the crawl domain
case-insensitively; with it on, `strings.HasSuffix(u.Host, c.domain)` —
an unanchored suffix test. -/
def shouldFollow (c : Crawler) (baseurl : String) : Bool :=
  match parseURL baseurl with
  | none => false
  | some u =>
    if !c.followSubDomains then strEqualFold u.host c.domain
    else strHasSfx u.host c.domain

/-! ## The sitemap store -/

/-- Model of `mzcrawler.Sitemap` (`map[string][]string`): an association list
from canonical URL to the list of links recorded for it.  Keys are unique by
construction (`sitemapInsert` overwrites in place). -/
abbrev Sitemap := List (String × List String)

/-- Does the map contain key `k`?  (Go `_, ok := m[k]`.) -/
def sitemapContains : Sitemap → String → Bool
  | [], _ => false
  | (k', _) :: rest, k => k' == k || sitemapContains rest k

/-- Look up key `k` (Go `m[k]`). -/
def sitemapFind : Sitemap → String → Option (List String)
  | [], _ => none
  | (k', v) :: rest, k => if k' == k then some v else sitemapFind rest k

/-- Map assignment `m[k] = v`: overwrite in place, or append a new binding. -/
def sitemapInsert : Sitemap → String → List String → Sitemap
  | [], k, v => [(k, v)]
  | (k', v') :: rest, k, v =>
    if k' == k then (k, v) :: rest else (k', v') :: sitemapInsert rest k v

/-- Model of `(c *WebCrawler) newURLFound(urlstr string)`: under the sitemap
mutex, return `false` if the key already exists, otherwise insert it with an
empty link list and return `true`.  The mutex linearises concurrent calls;
this function is one step of that linearisation. -/
def newURLFound (m : Sitemap) (urlstr : String) : Sitemap × Bool :=
  if sitemapContains m urlstr then (m, false)
  else (sitemapInsert m urlstr [], true)

/-! ## Crawl interpreter -/

/-- Ghost trace events of a crawl, in the linearised execution order:
`fetch target ok` — an HTTP GET was issued for `target` (`ok` = it returned
a parseable page); `visit url target` — a worker invocation responsible for
`url` was started, whose GET targeted `target`; `claim url won` — a
`newURLFound url` call returning `won`; `commit url links` — the final
`c.sitemap[url] = links` store. -/
inductive Event where
  | fetch (target : String) (ok : Bool)
  | visit (url : String) (target : String)
  | claim (url : String) (won : Bool)
  | commit (url : String) (links : List String)
deriving DecidableEq, Repr

/-- Interpreter state: the shared sitemap, the count of GETs issued so far
(index into the fetch oracle), and the ghost event trace. -/
structure St where
  sitemap : Sitemap
  ctr : Nat
  events : List Event
deriving DecidableEq, Repr

/-- The initial state: empty sitemap (`make(mzcrawler.Sitemap)`), no GETs. -/
def initSt : St := ⟨[], 0, []⟩

/-- Model of the filtering in `crawlURL`'s HTML walk: each anchor's href is
whitespace-trimmed and dropped when empty or starting with `#`. -/
def extractHrefs (raw : List String) : List String :=
  raw.filterMap (fun a =>
    let v := strTrimSpace a
    if v = "" || strHasPfx v "#" then none else some v)

/-- Model of `(c *WebCrawler) crawlURL(baseurl)`: issue the GET for
`target`, consuming one oracle index; on success the channel carries the
page's filtered hrefs.  Records a `fetch` event. -/
def doFetch (fetchFn : Nat → String → Option (List String)) (target : String)
    (st : St) : Option (List String) × St :=
  match fetchFn st.ctr target with
  | none =>
    (none, { st with ctr := st.ctr + 1,
                     events := st.events ++ [Event.fetch target false] })
  | some raw =>
    (some (extractHrefs raw),
      { st with ctr := st.ctr + 1,
                events := st.events ++ [Event.fetch target true] })

/-- One `newURLFound` call together with its trace event. -/
def claimSt (urlstr : String) (st : St) : St × Bool :=
  let r := newURLFound st.sitemap urlstr
  ({ st with sitemap := r.1, events := st.events ++ [Event.claim urlstr r.2] },
    r.2)

/-- The final `c.sitemap[urlstr] = sitemap` store of a worker. -/
def commitSt (urlstr : String) (urls : List String) (st : St) : St :=
  { st with sitemap := sitemapInsert st.sitemap urlstr urls,
            events := st.events ++ [Event.commit urlstr urls] }

/-- Record that a worker invocation for `u` started, with the URL its GET
targeted. -/
def visitEv (u target : String) (st : St) : St :=
  { st with events := st.events ++ [Event.visit u target] }

/-- The worker's per-page dedup set `urls` (`map[string]struct{}` with
insertion order kept): add `u` unless already present. -/
def dedupAdd (urls : List String) (u : String) : List String :=
  if urls.contains u then urls else urls ++ [u]

/-- Model of the body of `(c *WebCrawler) worker` after a won claim: walk the
page's hrefs (`for u := range urlCh`); normalize each against the crawler's
base; record it in the per-page dedup list; when `shouldFollow` accepts it,
spawn the child: the child's `crawlURL(c.url)` — note: the GET targets
`c.url`, the seed, not `u` — and, on fetch success, the child worker's claim
and (if won) its own page walk.  After the list is exhausted, commit the
dedup list for `urlstr`.  Goroutines are sequentialised depth-first; `fuel`
bounds the interpreter's recursion and decreases on every step, so a run is
faithful whenever fuel does not run out. -/
def workerLoop (c : Crawler) (fetchFn : Nat → String → Option (List String)) :
    Nat → String → List String → List String → St → St
  | _, urlstr, [], urls, st => commitSt urlstr urls st
  | 0, _, _ :: _, _, st => st
  | Nat.succ fuel, urlstr, href :: rest, urls, st =>
    let u := normalizeURL c href
    let st1 :=
      if shouldFollow c u then
        match doFetch fetchFn (render c.url) st with
        | (none, stf) => visitEv u (render c.url) stf
        | (some hrefs2, stf) =>
          let stv := visitEv u (render c.url) stf
          match claimSt u stv with
          | (stc, true) => workerLoop c fetchFn fuel u hrefs2 [] stc
          | (stc, false) => stc
      else st
    workerLoop c fetchFn fuel urlstr rest (dedupAdd urls u) st1

/-- Model of `(c *WebCrawler) worker(wg, urlstr, urlCh)`: claim `urlstr`;
if the claim is lost, return immediately; otherwise walk the channel's
hrefs and commit. -/
def worker (c : Crawler) (fetchFn : Nat → String → Option (List String))
    (fuel : Nat) (urlstr : String) (hrefs : List String) (st : St) : St :=
  match claimSt urlstr st with
  | (st1, true) => workerLoop c fetchFn fuel urlstr hrefs [] st1
  | (st1, false) => st1

/-- The spawned child task of `worker`'s loop, as a standalone function:
`crawlURL(c.url)` (the GET targets the seed), and on success the child
worker for `u`.  `workerLoop_cons` below proves this is exactly what the
loop executes per accepted link. -/
def spawnChild (c : Crawler) (fetchFn : Nat → String → Option (List String))
    (fuel : Nat) (u : String) (st : St) : St :=
  match doFetch fetchFn (render c.url) st with
  | (none, stf) => visitEv u (render c.url) stf
  | (some hrefs2, stf) =>
    let stv := visitEv u (render c.url) stf
    match claimSt u stv with
    | (stc, true) => workerLoop c fetchFn fuel u hrefs2 [] stc
    | (stc, false) => stc

/-- Model of `(c *WebCrawler) Crawl()`: GET the seed (`crawlURL(c.url)`);
on error return `(none, trace)` (Go: `nil, err`); otherwise run the root
worker on `c.urlstr` and return the sitemap once every descendant finished
(`wg.Wait()`). -/
def Crawl (c : Crawler) (fetchFn : Nat → String → Option (List String))
    (fuel : Nat) : Option Sitemap × List Event :=
  match doFetch fetchFn (render c.url) initSt with
  | (none, st1) => (none, (visitEv c.urlstr (render c.url) st1).events)
  | (some hrefs, st1) =>
    let st2 := visitEv c.urlstr (render c.url) st1
    let st3 := worker c fetchFn fuel c.urlstr hrefs st2
    (some st3.sitemap, st3.events)

/-- The sitemap a crawl returns (empty when `Crawl` errors). -/
def crawlSitemap (c : Crawler) (fetchFn : Nat → String → Option (List String))
    (fuel : Nat) : Sitemap :=
  ((Crawl c fetchFn fuel).1).getD []

/-- The normalized, deduplicated link list the worker commits for a page
whose channel carried `hrefs`: every href normalized with `normalizeURL c`
(the crawler's seed base), first occurrences kept. -/
def normalizedLinks (c : Crawler) (hrefs : List String) : List String :=
  hrefs.foldl (fun acc h => dedupAdd acc (normalizeURL c h)) []

/-! ## Store-level claim sequences (for the idempotent-claim property) -/

/-- Run a linearised sequence of `newURLFound` calls against the store,
returning the final store and each call's result in order.  The sitemap
mutex guarantees that any set of concurrent `claim` calls executes as such
a sequence. -/
def runClaims : Sitemap → List String → Sitemap × List Bool
  | m, [] => (m, [])
  | m, u :: rest =>
    let r := newURLFound m u
    let rr := runClaims r.1 rest
    (rr.1, r.2 :: rr.2)

/-- Number of calls in a claim sequence that were for `u` and won. -/
def claimWins (u : String) (calls : List String) (results : List Bool) : Nat :=
  List.countP (fun p => p.1 == u && p.2) (calls.zip results)

/-- Is this event a won claim for `u`? -/
def isClaimWin (u : String) : Event → Bool
  | Event.claim v w => v == u && w
  | _ => false

/-- Number of won claims for `u` in a trace. -/
def claimWinCount (u : String) (evs : List Event) : Nat :=
  List.countP (isClaimWin u) evs

/-- Number of GETs issued for `target` in a trace. -/
def fetchCount (target : String) (evs : List Event) : Nat :=
  List.countP (fun e => match e with
    | Event.fetch t _ => t == target
    | _ => false) evs

/-! ## Store lemmas -/

theorem sitemapContains_insert (m : Sitemap) (k : String) (v : List String)
    (x : String) :
    sitemapContains (sitemapInsert m k v) x = (k == x || sitemapContains m x) := by
  induction m with
  | nil => simp [sitemapInsert, sitemapContains]
  | cons e rest ih =>
    obtain ⟨k', v'⟩ := e
    by_cases h : k' = k
    · subst h
      simp [sitemapInsert, sitemapContains]
    · have hh : (k' == k) = false := by simp [h]
      simp [sitemapInsert, hh, sitemapContains, ih]
      cases hkx : (k == x) <;> cases hk'x : (k' == x) <;> simp [hkx, hk'x]

theorem sitemapFind_insert_self (m : Sitemap) (k : String) (v : List String) :
    sitemapFind (sitemapInsert m k v) k = some v := by
  induction m with
  | nil => simp [sitemapInsert, sitemapFind]
  | cons e rest ih =>
    obtain ⟨k', v'⟩ := e
    by_cases h : k' = k
    · subst h; simp [sitemapInsert, sitemapFind]
    · have hh : (k' == k) = false := by simp [h]
      simp [sitemapInsert, hh, sitemapFind, ih]

theorem claimWinCount_append (u : String) (l : List Event) (e : Event) :
    claimWinCount u (l ++ [e]) =
      claimWinCount u l + (if isClaimWin u e then 1 else 0) := by
  simp [claimWinCount, List.countP_append, List.countP_cons]

theorem claimWinCount_app (u : String) (l1 l2 : List Event) :
    claimWinCount u (l1 ++ l2) = claimWinCount u l1 + claimWinCount u l2 := by
  simp [claimWinCount, List.countP_append]

theorem claimWinCount_cons (u : String) (e : Event) (l : List Event) :
    claimWinCount u (e :: l) =
      (if isClaimWin u e then 1 else 0) + claimWinCount u l := by
  simp [claimWinCount, List.countP_cons]
  omega

/-! ## Interpreter step equations -/

theorem workerLoop_nil (c : Crawler) (f : Nat → String → Option (List String))
    (fuel : Nat) (urlstr : String) (urls : List String) (st : St) :
    workerLoop c f fuel urlstr [] urls st = commitSt urlstr urls st := by
  cases fuel <;> rfl

theorem workerLoop_zero_cons (c : Crawler)
    (f : Nat → String → Option (List String)) (urlstr href : String)
    (rest urls : List String) (st : St) :
    workerLoop c f 0 urlstr (href :: rest) urls st = st := rfl

theorem workerLoop_cons (c : Crawler) (f : Nat → String → Option (List String))
    (fuel : Nat) (urlstr href : String) (rest urls : List String) (st : St) :
    workerLoop c f (fuel + 1) urlstr (href :: rest) urls st =
      workerLoop c f fuel urlstr rest (dedupAdd urls (normalizeURL c href))
        (if shouldFollow c (normalizeURL c href) then
          spawnChild c f fuel (normalizeURL c href) st
        else st) := by
  rfl

theorem claimSt_of_contains (v : String) (st : St)
    (h : sitemapContains st.sitemap v = true) :
    claimSt v st =
      ({ st with events := st.events ++ [Event.claim v false] }, false) := by
  simp [claimSt, newURLFound, h]

theorem claimSt_of_new (v : String) (st : St)
    (h : sitemapContains st.sitemap v = false) :
    claimSt v st =
      ({ st with sitemap := sitemapInsert st.sitemap v [],
                 events := st.events ++ [Event.claim v true] }, true) := by
  simp [claimSt, newURLFound, h]

theorem doFetch_of_none (f : Nat → String → Option (List String)) (t : String)
    (st : St) (h : f st.ctr t = none) :
    doFetch f t st =
      (none, { st with ctr := st.ctr + 1,
                       events := st.events ++ [Event.fetch t false] }) := by
  simp [doFetch, h]

theorem doFetch_of_some (f : Nat → String → Option (List String)) (t : String)
    (st : St) (raw : List String) (h : f st.ctr t = some raw) :
    doFetch f t st =
      (some (extractHrefs raw),
        { st with ctr := st.ctr + 1,
                  events := st.events ++ [Event.fetch t true] }) := by
  simp [doFetch, h]

theorem spawnChild_fetch_none (c : Crawler)
    (f : Nat → String → Option (List String)) (fuel : Nat) (v : String)
    (st : St) (h : f st.ctr (render c.url) = none) :
    spawnChild c f fuel v st =
      visitEv v (render c.url)
        { st with ctr := st.ctr + 1,
                  events := st.events ++ [Event.fetch (render c.url) false] } := by
  simp only [spawnChild]
  rw [doFetch_of_none f (render c.url) st h]

theorem spawnChild_fetch_some_won (c : Crawler)
    (f : Nat → String → Option (List String)) (fuel : Nat) (v : String)
    (st : St) (raw : List String) (h : f st.ctr (render c.url) = some raw)
    (hnew : sitemapContains st.sitemap v = false) :
    spawnChild c f fuel v st =
      workerLoop c f fuel v (extractHrefs raw) []
        ⟨sitemapInsert st.sitemap v [], st.ctr + 1,
          ((st.events ++ [Event.fetch (render c.url) true])
            ++ [Event.visit v (render c.url)]) ++ [Event.claim v true]⟩ := by
  simp only [spawnChild]
  rw [doFetch_of_some f (render c.url) st raw h]
  simp only [visitEv]
  rw [claimSt_of_new v _ (by simpa using hnew)]

theorem spawnChild_fetch_some_lost (c : Crawler)
    (f : Nat → String → Option (List String)) (fuel : Nat) (v : String)
    (st : St) (raw : List String) (h : f st.ctr (render c.url) = some raw)
    (hold : sitemapContains st.sitemap v = true) :
    spawnChild c f fuel v st =
      ⟨st.sitemap, st.ctr + 1,
        ((st.events ++ [Event.fetch (render c.url) true])
          ++ [Event.visit v (render c.url)]) ++ [Event.claim v false]⟩ := by
  simp only [spawnChild]
  rw [doFetch_of_some f (render c.url) st raw h]
  simp only [visitEv]
  rw [claimSt_of_contains v _ (by simpa using hold)]

/-! ## At most one won claim per URL -/

/-- Potential function: won claims for `u` in the trace so far, plus one if
`u` is not yet a sitemap key.  Every interpreter step keeps it
non-increasing, which bounds the number of won claims for `u` by its
initial value. -/
def phi (u : String) (st : St) : Nat :=
  claimWinCount u st.events +
    (if sitemapContains st.sitemap u = true then 0 else 1)

theorem phi_claimSt (u v : String) (st : St) :
    phi u (claimSt v st).1 = phi u st := by
  by_cases h : sitemapContains st.sitemap v = true
  · rw [claimSt_of_contains v st h]
    simp [phi, claimWinCount_append, isClaimWin]
  · have h' : sitemapContains st.sitemap v = false := by simpa using h
    rw [claimSt_of_new v st h']
    by_cases hvu : v = u
    · subst hvu
      simp [phi, claimWinCount_append, isClaimWin, sitemapContains_insert, h']
    · have hb : (v == u) = false := by simp [hvu]
      simp [phi, claimWinCount_append, isClaimWin, hb, sitemapContains_insert]

theorem phi_commitSt (u v : String) (urls : List String) (st : St) :
    phi u (commitSt v urls st) ≤ phi u st := by
  simp only [phi, commitSt, claimWinCount_append, isClaimWin,
    sitemapContains_insert]
  cases hvu : (v == u) <;> cases hcm : sitemapContains st.sitemap u <;>
    simp [hvu, hcm]

theorem phi_visitEv (u v t : String) (st : St) :
    phi u (visitEv v t st) = phi u st := by
  simp [phi, visitEv, claimWinCount_append, isClaimWin]

theorem phi_fetch_evs (u : String) (st : St) (t : String) (ok : Bool) :
    phi u { st with ctr := st.ctr + 1,
                    events := st.events ++ [Event.fetch t ok] } = phi u st := by
  simp [phi, claimWinCount_append, isClaimWin]

theorem phi_workerLoop (c : Crawler)
    (f : Nat → String → Option (List String)) (u : String) :
    ∀ fuel urlstr hrefs urls st,
      phi u (workerLoop c f fuel urlstr hrefs urls st) ≤ phi u st := by
  intro fuel
  induction fuel with
  | zero =>
    intro urlstr hrefs urls st
    cases hrefs with
    | nil => rw [workerLoop_nil]; exact phi_commitSt u urlstr urls st
    | cons a b => rw [workerLoop_zero_cons]
  | succ fuel ih =>
    intro urlstr hrefs urls st
    cases hrefs with
    | nil => rw [workerLoop_nil]; exact phi_commitSt u urlstr urls st
    | cons href rest =>
      rw [workerLoop_cons]
      refine le_trans (ih urlstr rest _ _) ?_
      by_cases hs : shouldFollow c (normalizeURL c href) = true
      · simp only [hs, if_true]
        cases hf : f st.ctr (render c.url) with
        | none =>
          rw [spawnChild_fetch_none c f fuel _ st hf]
          rw [phi_visitEv, phi_fetch_evs]
        | some raw =>
          by_cases hcv :
              sitemapContains st.sitemap (normalizeURL c href) = true
          · rw [spawnChild_fetch_some_lost c f fuel _ st raw hf hcv]
            simp [phi, claimWinCount_app, claimWinCount_cons, claimWinCount,
              isClaimWin]
          · have hcv' :
                sitemapContains st.sitemap (normalizeURL c href) = false := by
              simpa using hcv
            rw [spawnChild_fetch_some_won c f fuel _ st raw hf hcv']
            refine le_trans (ih _ _ _ _) ?_
            by_cases hvu : normalizeURL c href = u
            · subst hvu
              simp [phi, claimWinCount_app, claimWinCount_cons, claimWinCount,
                isClaimWin, sitemapContains_insert, hcv']
            · have hb : (normalizeURL c href == u) = false := by simp [hvu]
              simp [phi, claimWinCount_app, claimWinCount_cons, claimWinCount,
                isClaimWin, hb, sitemapContains_insert]
      · simp [hs]

theorem phi_worker (c : Crawler) (f : Nat → String → Option (List String))
    (u : String) (fuel : Nat) (urlstr : String) (hrefs : List String)
    (st : St) : phi u (worker c f fuel urlstr hrefs st) ≤ phi u st := by
  unfold worker
  by_cases h : sitemapContains st.sitemap urlstr = true
  · rw [claimSt_of_contains urlstr st h]
    simp only []
    have := phi_claimSt u urlstr st
    rw [claimSt_of_contains urlstr st h] at this
    exact le_of_eq this
  · have h' : sitemapContains st.sitemap urlstr = false := by simpa using h
    rw [claimSt_of_new urlstr st h']
    simp only []
    refine le_trans (phi_workerLoop c f u fuel urlstr hrefs [] _) ?_
    have := phi_claimSt u urlstr st
    rw [claimSt_of_new urlstr st h'] at this
    exact le_of_eq this

/-- Won claims for `u` in a full crawl trace never exceed one: the trace's
potential starts at one (`u` unclaimed in the empty sitemap) and never
increases. -/
theorem claimWinCount_Crawl (c : Crawler)
    (f : Nat → String → Option (List String)) (fuel : Nat) (u : String) :
    claimWinCount u (Crawl c f fuel).2 ≤ 1 := by
  unfold Crawl
  cases hf : f initSt.ctr (render c.url) with
  | none =>
    rw [doFetch_of_none f (render c.url) initSt hf]
    simp [initSt, visitEv, claimWinCount, List.countP_cons, isClaimWin]
  | some raw =>
    rw [doFetch_of_some f (render c.url) initSt raw hf]
    simp only []
    have hphi := phi_worker c f u fuel c.urlstr (extractHrefs raw)
      (visitEv c.urlstr (render c.url)
        { initSt with ctr := initSt.ctr + 1,
                      events := initSt.events ++ [Event.fetch (render c.url) true] })
    have hle : claimWinCount u
        (worker c f fuel c.urlstr (extractHrefs raw)
          (visitEv c.urlstr (render c.url)
            { initSt with ctr := initSt.ctr + 1,
                          events := initSt.events ++ [Event.fetch (render c.url) true] })).events ≤
        phi u (worker c f fuel c.urlstr (extractHrefs raw)
          (visitEv c.urlstr (render c.url)
            { initSt with ctr := initSt.ctr + 1,
                          events := initSt.events ++ [Event.fetch (render c.url) true] })) := by
      unfold phi
      split <;> omega
    refine le_trans hle (le_trans hphi ?_)
    simp [phi, initSt, visitEv, claimWinCount, List.countP_cons, isClaimWin,
      sitemapContains]

/-! ## What a worker commits: every href normalized against the seed base -/

theorem workerLoop_find (c : Crawler)
    (f : Nat → String → Option (List String)) :
    ∀ fuel urlstr hrefs urls st, hrefs.length ≤ fuel →
      sitemapFind (workerLoop c f fuel urlstr hrefs urls st).sitemap urlstr =
        some (hrefs.foldl (fun acc h => dedupAdd acc (normalizeURL c h)) urls) := by
  intro fuel
  induction fuel with
  | zero =>
    intro urlstr hrefs urls st hlen
    cases hrefs with
    | nil =>
      rw [workerLoop_nil]
      simp [commitSt, sitemapFind_insert_self]
    | cons a b => simp at hlen
  | succ fuel ih =>
    intro urlstr hrefs urls st hlen
    cases hrefs with
    | nil =>
      rw [workerLoop_nil]
      simp [commitSt, sitemapFind_insert_self]
    | cons href rest =>
      rw [workerLoop_cons]
      rw [ih urlstr rest _ _ (by simpa using Nat.le_of_succ_le_succ hlen)]
      simp [List.foldl_cons]

/-- After a fresh claim, the worker's committed entry for its URL is exactly
the page's hrefs, each normalized with `normalizeURL c` — the crawler's
seed base — deduplicated keeping first occurrences. -/
theorem worker_find (c : Crawler) (f : Nat → String → Option (List String))
    (fuel : Nat) (urlstr : String) (hrefs : List String) (st : St)
    (hnew : sitemapContains st.sitemap urlstr = false)
    (hlen : hrefs.length ≤ fuel) :
    sitemapFind (worker c f fuel urlstr hrefs st).sitemap urlstr =
      some (normalizedLinks c hrefs) := by
  unfold worker
  rw [claimSt_of_new urlstr st hnew]
  simp only []
  rw [workerLoop_find c f fuel urlstr hrefs [] _ hlen]
  rfl

/-! ## Which keys the sitemap can acquire -/

theorem keys_workerLoop (c : Crawler)
    (f : Nat → String → Option (List String)) :
    ∀ fuel urlstr hrefs urls st,
      (urlstr = c.urlstr ∨ shouldFollow c urlstr = true) →
      (∀ k, sitemapContains st.sitemap k = true →
        k = c.urlstr ∨ shouldFollow c k = true) →
      ∀ k, sitemapContains (workerLoop c f fuel urlstr hrefs urls st).sitemap k = true →
        k = c.urlstr ∨ shouldFollow c k = true := by
  intro fuel
  induction fuel with
  | zero =>
    intro urlstr hrefs urls st hok hst k hk
    cases hrefs with
    | nil =>
      rw [workerLoop_nil] at hk
      simp only [commitSt, sitemapContains_insert] at hk
      cases hu : (urlstr == k) with
      | true =>
        have he : urlstr = k := by simpa using hu
        exact he ▸ hok
      | false => exact hst k (by simpa [hu] using hk)
    | cons a b =>
      rw [workerLoop_zero_cons] at hk
      exact hst k hk
  | succ fuel ih =>
    intro urlstr hrefs urls st hok hst k hk
    cases hrefs with
    | nil =>
      rw [workerLoop_nil] at hk
      simp only [commitSt, sitemapContains_insert] at hk
      cases hu : (urlstr == k) with
      | true =>
        have he : urlstr = k := by simpa using hu
        exact he ▸ hok
      | false => exact hst k (by simpa [hu] using hk)
    | cons href rest =>
      rw [workerLoop_cons] at hk
      refine ih urlstr rest _ _ hok ?_ k hk
      by_cases hs : shouldFollow c (normalizeURL c href) = true
      · simp only [hs, if_true]
        intro k' hk'
        cases hfr : f st.ctr (render c.url) with
        | none =>
          rw [spawnChild_fetch_none c f fuel _ st hfr] at hk'
          exact hst k' hk'
        | some raw =>
          by_cases hcv :
              sitemapContains st.sitemap (normalizeURL c href) = true
          · rw [spawnChild_fetch_some_lost c f fuel _ st raw hfr hcv] at hk'
            exact hst k' hk'
          · have hcv' :
                sitemapContains st.sitemap (normalizeURL c href) = false := by
              simpa using hcv
            rw [spawnChild_fetch_some_won c f fuel _ st raw hfr hcv'] at hk'
            refine ih (normalizeURL c href) (extractHrefs raw) [] _
              (Or.inr hs) ?_ k' hk'
            intro k2 hk2
            simp only [sitemapContains_insert] at hk2
            cases hu2 : (normalizeURL c href == k2) with
            | true =>
              have he2 : normalizeURL c href = k2 := by simpa using hu2
              exact he2 ▸ Or.inr hs
            | false => exact hst k2 (by simpa [hu2] using hk2)
      · simp only [hs, if_false]
        exact hst

/-- Every key of the final sitemap of a crawl is the seed's URL string or a
URL accepted by the scope filter; out-of-scope links are recorded in link
lists but never become keys, except when out-of-scope URL is the seed
itself. -/
theorem keys_Crawl (c : Crawler) (f : Nat → String → Option (List String))
    (fuel : Nat) (k : String)
    (hk : sitemapContains (crawlSitemap c f fuel) k = true) :
    k = c.urlstr ∨ shouldFollow c k = true := by
  unfold crawlSitemap Crawl at hk
  cases hf : f initSt.ctr (render c.url) with
  | none =>
    rw [doFetch_of_none f (render c.url) initSt hf] at hk
    simp [sitemapContains] at hk
  | some raw =>
    rw [doFetch_of_some f (render c.url) initSt raw hf] at hk
    simp only [Option.getD_some] at hk
    revert hk
    unfold worker
    set stv := visitEv c.urlstr (render c.url)
      { initSt with ctr := initSt.ctr + 1,
                    events := initSt.events ++ [Event.fetch (render c.url) true] } with hstv
    have hcv : sitemapContains stv.sitemap c.urlstr = false := by
      simp [hstv, visitEv, initSt, sitemapContains]
    rw [claimSt_of_new c.urlstr stv hcv]
    simp only []
    intro hk
    refine keys_workerLoop c f fuel c.urlstr (extractHrefs raw) [] _
      (Or.inl rfl) ?_ k hk
    intro k2 hk2
    simp only [sitemapContains_insert] at hk2
    cases hu2 : (c.urlstr == k2) with
    | true =>
      have he2 : c.urlstr = k2 := by simpa using hu2
      exact Or.inl he2.symm
    | false =>
      have : sitemapContains stv.sitemap k2 = true := by simpa [hu2] using hk2
      rw [hstv] at this
      simp [visitEv, initSt, sitemapContains] at this

/-! ## Membership in the committed dedup list -/

theorem mem_dedupAdd_self (l : List String) (u : String) : u ∈ dedupAdd l u := by
  unfold dedupAdd
  cases h : l.contains u with
  | true =>
    simp only [if_pos]
    simpa using h
  | false => simp

theorem mem_dedupAdd_of_mem (l : List String) (u x : String) (hx : x ∈ l) :
    x ∈ dedupAdd l u := by
  unfold dedupAdd
  cases h : l.contains u <;> simp [hx]

theorem mem_foldl_dedupAdd_of_mem_init (c : Crawler) (hrefs : List String) :
    ∀ urls x, x ∈ urls →
      x ∈ hrefs.foldl (fun acc h => dedupAdd acc (normalizeURL c h)) urls := by
  induction hrefs with
  | nil => intro urls x hx; simpa using hx
  | cons href rest ih =>
    intro urls x hx
    simp only [List.foldl_cons]
    exact ih _ x (mem_dedupAdd_of_mem _ _ x hx)

theorem mem_foldl_dedupAdd_of_mem (c : Crawler) (hrefs : List String)
    (h0 : String) (hh : h0 ∈ hrefs) : ∀ urls,
      normalizeURL c h0 ∈
        hrefs.foldl (fun acc h => dedupAdd acc (normalizeURL c h)) urls := by
  induction hrefs with
  | nil => cases hh
  | cons href rest ih =>
    intro urls
    simp only [List.foldl_cons]
    rcases List.mem_cons.mp hh with he | hm
    · subst he
      exact mem_foldl_dedupAdd_of_mem_init c rest _ _ (mem_dedupAdd_self _ _)
    · exact ih hm _

/-! ## Fetch failures: no claim, no entry, no crawl-wide error -/

theorem spawnChild_sitemap_of_fetch_none (c : Crawler)
    (f : Nat → String → Option (List String)) (fuel : Nat) (v : String)
    (st : St) (h : f st.ctr (render c.url) = none) :
    (spawnChild c f fuel v st).sitemap = st.sitemap := by
  rw [spawnChild_fetch_none c f fuel v st h]
  rfl

theorem Crawl_isSome_of_seed_fetch (c : Crawler)
    (f : Nat → String → Option (List String)) (fuel : Nat)
    (h : (f 0 (render c.url)).isSome = true) :
    (Crawl c f fuel).1.isSome = true := by
  unfold Crawl
  cases hf : f initSt.ctr (render c.url) with
  | none =>
    have : f 0 (render c.url) = none := hf
    rw [this] at h
    simp at h
  | some raw =>
    rw [doFetch_of_some f (render c.url) initSt raw hf]
    rfl

/-! ## Claim sequences: the idempotent-claim property -/

theorem runClaims_cons (m : Sitemap) (v : String) (rest : List String) :
    runClaims m (v :: rest) =
      ((runClaims (newURLFound m v).1 rest).1,
        (newURLFound m v).2 :: (runClaims (newURLFound m v).1 rest).2) := rfl

theorem claimWins_cons (u v : String) (calls : List String) (b : Bool)
    (bs : List Bool) :
    claimWins u (v :: calls) (b :: bs) =
      (if (v == u && b) = true then 1 else 0) + claimWins u calls bs := by
  simp [claimWins, List.countP_cons]
  omega

theorem runClaims_wins_zero (u : String) :
    ∀ (calls : List String) (m : Sitemap), sitemapContains m u = true →
      claimWins u calls (runClaims m calls).2 = 0 := by
  intro calls
  induction calls with
  | nil => intro m _; simp [runClaims, claimWins]
  | cons v rest ih =>
    intro m hm
    rw [runClaims_cons, claimWins_cons]
    by_cases hv : sitemapContains m v = true
    · have hnv : newURLFound m v = (m, false) := by simp [newURLFound, hv]
      rw [hnv]
      simp [ih m hm]
    · have hv' : sitemapContains m v = false := by simpa using hv
      have hnv : newURLFound m v = (sitemapInsert m v [], true) := by
        simp [newURLFound, hv']
      have hvu : (v == u) = false := by
        by_cases he : v = u
        · rw [he, hm] at hv'; cases hv'
        · simp [he]
      rw [hnv]
      rw [ih _ (by simp [sitemapContains_insert, hvu, hm])]
      simp [hvu]


theorem runClaims_wins_once (u : String) :
    ∀ (calls : List String) (m : Sitemap), sitemapContains m u = false →
      u ∈ calls → claimWins u calls (runClaims m calls).2 = 1 := by
  intro calls
  induction calls with
  | nil => intro m _ hmem; cases hmem
  | cons v rest ih =>
    intro m hm hmem
    rw [runClaims_cons, claimWins_cons]
    by_cases he : v = u
    · have hvu : (v == u) = true := by simp [he]
      have hmv : sitemapContains m v = false := by rw [he]; exact hm
      have hnv : newURLFound m v = (sitemapInsert m v [], true) := by
        simp [newURLFound, hmv]
      rw [hnv]
      rw [runClaims_wins_zero u rest _ (by simp [sitemapContains_insert, hvu])]
      simp [hvu]
    · have hvu : (v == u) = false := by simp [he]
      have hmem' : u ∈ rest := by
        rcases List.mem_cons.mp hmem with h1 | h1
        · exact absurd h1.symm he
        · exact h1
      by_cases hv : sitemapContains m v = true
      · have hnv : newURLFound m v = (m, false) := by simp [newURLFound, hv]
        rw [hnv]
        rw [ih m hm hmem']
        simp [hvu]
      · have hv' : sitemapContains m v = false := by simpa using hv
        have hnv : newURLFound m v = (sitemapInsert m v [], true) := by
          simp [newURLFound, hv']
        rw [hnv]
        rw [ih _ (by simp [sitemapContains_insert, hvu, hm]) hmem']
        simp [hvu]


/-! ## Concrete fixtures for witnesses and counterexamples -/

/-- The crawler `NewWebCrawler("https://monzo.com")` builds. -/
def monzoC : Crawler :=
  ⟨"https://monzo.com", ⟨"https", "monzo.com", "", "", ""⟩, "monzo.com", true⟩

/-- The crawler `main` builds for seed `https://blog.monzo.com` with the
`-subdomains` flag left at its default (`false`). -/
def blogC : Crawler :=
  ⟨"https://blog.monzo.com", ⟨"https", "blog.monzo.com", "", "", ""⟩,
    "monzo.com", false⟩

/-- Oracle: every page served contains a single link `/about`. -/
def fetchAbout : Nat → String → Option (List String) := fun _ _ => some ["/about"]

/-- Oracle: the first GET succeeds with a single link `/about`; every later
GET fails (transport error). -/
def fetchFailChild : Nat → String → Option (List String) :=
  fun i _ => if i == 0 then some ["/about"] else none

/-- Oracle: the first GET yields a link to the `blog` subdomain; every later
GET yields the root-relative link `/article`. -/
def fetchBlog : Nat → String → Option (List String) :=
  fun i _ => if i == 0 then some ["https://blog.monzo.com"] else some ["/article"]

/-- Oracle: every page links to `https://blog.monzo.com`. -/
def fetchSelf : Nat → String → Option (List String) :=
  fun _ _ => some ["https://blog.monzo.com"]

/-- Oracle: every GET fails. -/
def fetchNone : Nat → String → Option (List String) := fun _ _ => none

/-! ## Claims -/

/-- C1: the claim says every worker invocation's HTTP GET targets the URL
that invocation claimed.  The code instead always GETs the seed: the spawned
goroutine runs `c.crawlURL(c.url)` — `c.url` is the crawler's seed — while
passing `u` to `c.worker`.  Evaluating the crawl of seed
`https://monzo.com` whose page links `/about`: the invocation claiming
`https://monzo.com/about` issued its GET for `https://monzo.com`, a
different URL. -/
theorem C1_fetch_targets_seed_at_failing_input :
    NewWebCrawler "https://monzo.com" = some monzoC ∧
    Event.visit "https://monzo.com/about" "https://monzo.com"
      ∈ (Crawl monzoC fetchAbout 5).2 ∧
    Event.claim "https://monzo.com/about" true ∈ (Crawl monzoC fetchAbout 5).2 ∧
    "https://monzo.com/about" ≠ "https://monzo.com" := by
  refine ⟨by decide, by decide, by decide, by decide⟩

/-- C2 counterexample: with seed `https://monzo.com` linking `/about` and the
child's GET failing, the claim says the final sitemap holds
`https://monzo.com/about` with an empty link list.  Instead the failed URL
gets no sitemap entry at all (its worker is never invoked, so it is never
claimed), while `Crawl` still returns a sitemap (no error). -/
theorem C2_counterexample :
    Event.visit "https://monzo.com/about" "https://monzo.com"
      ∈ (Crawl monzoC fetchFailChild 5).2 ∧
    Event.fetch "https://monzo.com" false ∈ (Crawl monzoC fetchFailChild 5).2 ∧
    sitemapContains (crawlSitemap monzoC fetchFailChild 5)
      "https://monzo.com/about" = false ∧
    (Crawl monzoC fetchFailChild 5).1.isSome = true := by
  refine ⟨by decide, by decide, by decide, by decide⟩

/-- C2 (amended): when the GET of a spawned invocation fails, that invocation
leaves the sitemap completely unchanged — in particular it adds no entry for
its URL — and a fetch failure after a successful seed fetch never makes
`Crawl` return an error. -/
theorem C2_fetch_failure_no_entry_no_error :
    (∀ (c : Crawler) (f : Nat → String → Option (List String))
      (fuel : Nat) (v : String) (st : St),
      f st.ctr (render c.url) = none →
      (spawnChild c f fuel v st).sitemap = st.sitemap) ∧
    (∀ (c : Crawler) (f : Nat → String → Option (List String)) (fuel : Nat),
      (f 0 (render c.url)).isSome = true →
      (Crawl c f fuel).1.isSome = true) := by
  exact ⟨spawnChild_sitemap_of_fetch_none, Crawl_isSome_of_seed_fetch⟩

/-- C2 witness: both parts of the amended statement instantiated — a failing
fetch leaves the initial state's sitemap unchanged, and a crawl whose seed
fetch succeeds returns a sitemap. -/
theorem C2_witness :
    fetchNone initSt.ctr (render monzoC.url) = none ∧
    (spawnChild monzoC fetchNone 3 "https://monzo.com/x" initSt).sitemap =
      initSt.sitemap ∧
    (fetchAbout 0 (render monzoC.url)).isSome = true ∧
    (Crawl monzoC fetchAbout 3).1.isSome = true :=
  ⟨rfl,
    C2_fetch_failure_no_entry_no_error.1 monzoC fetchNone 3
      "https://monzo.com/x" initSt rfl,
    by decide,
    C2_fetch_failure_no_entry_no_error.2 monzoC fetchAbout 3 (by decide)⟩

/-- C3 counterexample: the claim says no URL is ever fetched twice.  In the
crawl of `https://monzo.com` whose every page links `/about`, the URL
`https://monzo.com` is GET-ted three times (once by `Crawl`, once per
spawned child, which always fetches the seed). -/
theorem C3_counterexample :
    fetchCount "https://monzo.com" (Crawl monzoC fetchAbout 5).2 = 3 ∧
    1 < 3 := by
  refine ⟨by decide, by decide⟩

/-- C3 (amended): the claim step does prevent duplicate processing — in any
crawl, each URL's claim is won at most once, so at most one task consumes a
page's links and commits for it — but a task's GET precedes its claim, so
the same URL can be fetched more than once. -/
theorem C3_claim_wins_unique (c : Crawler)
    (f : Nat → String → Option (List String)) (fuel : Nat) (u : String) :
    claimWinCount u (Crawl c f fuel).2 ≤ 1 :=
  claimWinCount_Crawl c f fuel u

/-- C4 counterexample: with seed `https://monzo.com`, the page at
`https://blog.monzo.com` carries the raw href `/article`; the claim says it
is normalized against its own page location
(`https://blog.monzo.com/article`), but the committed list holds the
seed-based normalization `https://monzo.com/article`. -/
theorem C4_counterexample :
    NewWebCrawler "https://monzo.com" = some monzoC ∧
    sitemapFind (crawlSitemap monzoC fetchBlog 6) "https://blog.monzo.com" =
      some ["https://monzo.com/article"] ∧
    "https://monzo.com/article" ≠ "https://blog.monzo.com/article" := by
  refine ⟨by decide, by decide, by decide⟩

/-- C4 (amended): every worker commits for its page exactly the page's
hrefs normalized by `normalizeURL c` — whose base is the crawler's single
stored seed URL `c.url`, whatever page the href came from — deduplicated
keeping first occurrences. -/
theorem C4_normalize_against_seed_base (c : Crawler)
    (f : Nat → String → Option (List String)) (fuel : Nat) (urlstr : String)
    (hrefs : List String) (st : St)
    (hnew : sitemapContains st.sitemap urlstr = false)
    (hlen : hrefs.length ≤ fuel) :
    sitemapFind (worker c f fuel urlstr hrefs st).sitemap urlstr =
      some (normalizedLinks c hrefs) :=
  worker_find c f fuel urlstr hrefs st hnew hlen

/-- C4 witness: the amended statement instantiated on the fresh state and a
one-link page. -/
theorem C4_witness :
    sitemapContains initSt.sitemap "https://blog.monzo.com" = false ∧
    ([("/article" : String)].length ≤ 3) ∧
    sitemapFind (worker monzoC fetchBlog 3 "https://blog.monzo.com"
      ["/article"] initSt).sitemap "https://blog.monzo.com" =
      some (normalizedLinks monzoC ["/article"]) :=
  ⟨by decide, by decide,
    C4_normalize_against_seed_base monzoC fetchBlog 3 "https://blog.monzo.com"
      ["/article"] initSt (by decide) (by decide)⟩

/-- C5: the claim (and the spec's stated intent) is label-anchored scope
matching, under which `evilexample.com` is out of scope for registrable
domain `example.com`.  The code's `shouldFollow` uses unanchored
`strings.HasSuffix(u.Host, c.domain)`, so it accepts `evilexample.com`:
evaluating the code at the failing input returns in-scope (`true`), although
the host neither equals the domain nor ends in `.example.com`. -/
theorem C5_unanchored_suffix_at_failing_input :
    (NewWebCrawler "https://example.com").map (fun c => c.domain) =
      some "example.com" ∧
    (NewWebCrawler "https://example.com").map
      (fun c => shouldFollow c "https://evilexample.com") = some true ∧
    strHasSfx "evilexample.com" ".example.com" = false ∧
    "evilexample.com" ≠ "example.com" := by
  refine ⟨by decide, by decide, by decide, by decide⟩

/-- C6: in any linearised sequence of `newURLFound` (claim) calls — the
sitemap mutex linearises concurrent callers — containing at least one call
for a URL not yet in the store, exactly one call for that URL returns
`true`. -/
theorem C6_claim_wins_exactly_once (m : Sitemap) (calls : List String)
    (u : String) (hnew : sitemapContains m u = false) (hmem : u ∈ calls) :
    claimWins u calls (runClaims m calls).2 = 1 :=
  runClaims_wins_once u calls m hnew hmem

/-- C6 witness: three claims of the same URL interleaved with another URL:
the single win. -/
theorem C6_witness :
    sitemapContains [] "https://monzo.com/a" = false ∧
    "https://monzo.com/a" ∈ ["https://monzo.com/a", "https://monzo.com/b",
      "https://monzo.com/a", "https://monzo.com/a"] ∧
    claimWins "https://monzo.com/a"
      ["https://monzo.com/a", "https://monzo.com/b", "https://monzo.com/a",
        "https://monzo.com/a"]
      (runClaims [] ["https://monzo.com/a", "https://monzo.com/b",
        "https://monzo.com/a", "https://monzo.com/a"]).2 = 1 :=
  ⟨by decide, by decide,
    C6_claim_wins_exactly_once [] _ "https://monzo.com/a" (by decide)
      (by decide)⟩

/-- C7: the five normalization round-trip examples over base
`https://monzo.com/path?query=param#fragment`, exactly as the spec (and the
repository's `TestNormalizeURL`) states them. -/
theorem C7_normalization_examples :
    ((NewWebCrawler "https://monzo.com/path?query=param#fragment").map
      (fun c => normalizeURL c "/") = some "https://monzo.com") ∧
    ((NewWebCrawler "https://monzo.com/path?query=param#fragment").map
      (fun c => normalizeURL c "/blog") = some "https://monzo.com/blog") ∧
    ((NewWebCrawler "https://monzo.com/path?query=param#fragment").map
      (fun c => normalizeURL c "../blog") = some "https://monzo.com/../blog") ∧
    ((NewWebCrawler "https://monzo.com/path?query=param#fragment").map
      (fun c => normalizeURL c "//secure.monzo.com/blog") =
        some "https://secure.monzo.com/blog") ∧
    ((NewWebCrawler "https://monzo.com/path?query=param#fragment").map
      (fun c => normalizeURL c "http://monzo.com/blog") =
        some "http://monzo.com/blog") := by
  refine ⟨by decide, by decide, by decide, by decide, by decide⟩

/-- C8 counterexample: the claim says an out-of-scope URL recorded in a link
list is never a sitemap key.  Take seed `https://blog.monzo.com` with
subdomain-following at the CLI default `false`: the seed's URL itself fails
`shouldFollow` (its host is not case-insensitively equal to the derived
domain `monzo.com`), yet the seed is claimed at crawl start, so a page
linking to it shows it in its link list while it is also a sitemap key. -/
theorem C8_counterexample :
    (NewWebCrawler "https://blog.monzo.com").map
      (fun c => { c with followSubDomains := followSubDomainsFlagDefault }) =
      some blogC ∧
    shouldFollow blogC "https://blog.monzo.com" = false ∧
    "https://blog.monzo.com" ∈
      (sitemapFind (crawlSitemap blogC fetchSelf 5)
        "https://blog.monzo.com").getD [] ∧
    sitemapContains (crawlSitemap blogC fetchSelf 5)
      "https://blog.monzo.com" = true := by
  refine ⟨by decide, by decide, by decide, by decide⟩

/-- C8 (amended): every visited page's committed list records each of its
normalized links, in or out of scope; and every sitemap key is either the
seed's URL string or passes the scope filter — so an out-of-scope URL is
never a key unless it is the seed itself. -/
theorem C8_out_of_scope_recorded_not_keyed :
    (∀ (c : Crawler) (f : Nat → String → Option (List String)) (fuel : Nat)
      (k : String),
      sitemapContains (crawlSitemap c f fuel) k = true →
      k = c.urlstr ∨ shouldFollow c k = true) ∧
    (∀ (c : Crawler) (f : Nat → String → Option (List String)) (fuel : Nat)
      (urlstr : String) (hrefs : List String) (st : St) (href : String),
      sitemapContains st.sitemap urlstr = false → hrefs.length ≤ fuel →
      href ∈ hrefs →
      normalizeURL c href ∈
        (sitemapFind (worker c f fuel urlstr hrefs st).sitemap urlstr).getD []) := by
  constructor
  · exact keys_Crawl
  · intro c f fuel urlstr hrefs st href hnew hlen hmem
    rw [worker_find c f fuel urlstr hrefs st hnew hlen]
    exact mem_foldl_dedupAdd_of_mem c hrefs href hmem []

/-- C8 witness: both parts instantiated on the `https://blog.monzo.com`
crawl: its only key is the seed, and the out-of-scope self-link is recorded
in the seed's committed list. -/
theorem C8_witness :
    sitemapContains (crawlSitemap blogC fetchSelf 5)
      "https://blog.monzo.com" = true ∧
    ("https://blog.monzo.com" = blogC.urlstr ∨
      shouldFollow blogC "https://blog.monzo.com" = true) ∧
    normalizeURL blogC "https://blog.monzo.com" ∈
      (sitemapFind (worker blogC fetchSelf 3 "https://blog.monzo.com"
        ["https://blog.monzo.com"] initSt).sitemap
        "https://blog.monzo.com").getD [] :=
  ⟨by decide,
    C8_out_of_scope_recorded_not_keyed.1 blogC fetchSelf 5
      "https://blog.monzo.com" (by decide),
    C8_out_of_scope_recorded_not_keyed.2 blogC fetchSelf 3
      "https://blog.monzo.com" ["https://blog.monzo.com"] initSt
      "https://blog.monzo.com" (by decide) (by decide) (by decide)⟩

/-- C9: `NewWebCrawler` always constructs the crawler with
`FollowSubDomains = true`, while the CLI `-subdomains` flag defaults to
`false` (and `main` overwrites the field with the flag value). -/
theorem C9_follow_subdomains_default :
    (∀ (baseurl : String) (c : Crawler),
      NewWebCrawler baseurl = some c → c.followSubDomains = true) ∧
    followSubDomainsFlagDefault = false := by
  constructor
  · intro baseurl c h
    unfold NewWebCrawler at h
    cases hp : parseURL baseurl with
    | none => rw [hp] at h; cases h
    | some u =>
      rw [hp] at h
      cases h
      rfl
  · rfl

/-- C9 witness: the freshly constructed crawler for `https://monzo.com`
follows subdomains, though the flag default is `false`. -/
theorem C9_witness :
    NewWebCrawler "https://monzo.com" = some monzoC ∧
    monzoC.followSubDomains = true ∧
    followSubDomainsFlagDefault = false :=
  ⟨by decide,
    C9_follow_subdomains_default.1 "https://monzo.com" monzoC (by decide),
    C9_follow_subdomains_default.2⟩

/-- C10: a losing `newURLFound` call — the key already present — returns the
sitemap itself, untouched: the stored list under that key and every other
entry are exactly as before. -/
theorem C10_losing_claim_frame (m : Sitemap) (u : String)
    (h : sitemapContains m u = true) : newURLFound m u = (m, false) := by
  simp [newURLFound, h]

/-- C10 witness: a losing claim on a two-entry store returns that very
store. -/
theorem C10_witness :
    sitemapContains [("https://monzo.com", ["https://monzo.com/about"]),
      ("https://monzo.com/about", [])] "https://monzo.com" = true ∧
    newURLFound [("https://monzo.com", ["https://monzo.com/about"]),
      ("https://monzo.com/about", [])] "https://monzo.com" =
      ([("https://monzo.com", ["https://monzo.com/about"]),
        ("https://monzo.com/about", [])], false) :=
  ⟨by decide,
    C10_losing_claim_frame
      [("https://monzo.com", ["https://monzo.com/about"]),
        ("https://monzo.com/about", [])] "https://monzo.com" (by decide)⟩

end Mzcrawler
